import Mathlib

/-!
# Verification of the dmxtrace-ng model-extraction core

Shallow embedding of the Rust sources of `rbftrace-core` and
`rbftrace-model-extraction` (time primitives, closed-interval algebra, the
sparse-map/RBF store, the trace container, the job extractor, the periodic
extractor and the composite extractor), together with proofs and refutations
of the specification's testable properties.

Machine integers: `Time` is a `u64` count of nanoseconds in the source
(`time.rs`).  All quantities stay far below `2^64` in every statement proved
here, and Rust debug builds panic on overflow rather than wrap, so `Time` is
modelled as `Nat`; `u64` subtraction (which panics on underflow in the
source) is modelled by truncated `Nat` subtraction, and every theorem whose
source code path is guarded by an assertion carries that guard as a
hypothesis.
-/

namespace Rbftrace

/-!
`Time { ns: u64 }` from `time.rs` and its aliases `Duration`, `Cost`,
`Period`, `Jitter`, `Offset` are all modelled as `Nat` (see header).  The
`Pid` and `Priority` aliases are exported by the core crate but their
definitions are not among the provided sources; per the spec a Task-ID is
"an opaque unsigned integer", so they are `Nat` as well.  `Nat` is written
literally in every signature below.
-/

/-- `Time::truncate` (`time.rs` lines 71-75):
`new_ns = (self.ns / resolution.ns) * resolution.ns`. -/
def Time.truncate (t resolution : Nat) : Nat :=
  (t / resolution) * resolution

/-- `Time::round` (`time.rs` lines 77-90): `halfway = resolution / 2`;
divide, add one if the remainder is `>= halfway`, multiply back. -/
def Time.round (t resolution : Nat) : Nat :=
  let halfway := resolution / 2
  let q := t / resolution
  let q2 := if halfway ≤ t % resolution then q + 1 else q
  q2 * resolution

/-! ## Closed intervals (`math.rs`) -/

/-- `ClosedInterval<T>` (`math.rs` lines 4-9). -/
inductive ClosedInterval (T : Type) where
  | Empty : ClosedInterval T
  | NotEmpty (a b : T) : ClosedInterval T
  | NotAnInterval : ClosedInterval T
deriving DecidableEq, Repr

namespace ClosedInterval

variable {T : Type}

/-- `ClosedInterval::closed` (`math.rs`). -/
def closed (lower upper : T) : ClosedInterval T := NotEmpty lower upper

/-- `ClosedInterval::is_empty` (`math.rs`). -/
def is_empty : ClosedInterval T → Bool
  | Empty => true
  | _ => false

/-- `ClosedInterval::is_interval` (`math.rs`). -/
def is_interval : ClosedInterval T → Bool
  | NotAnInterval => false
  | _ => true

/-- `ClosedInterval::get_upper` (`math.rs`). -/
def get_upper : ClosedInterval T → Option T
  | NotEmpty _ b => some b
  | _ => none

/-- `ClosedInterval::get_lower` (`math.rs`). -/
def get_lower : ClosedInterval T → Option T
  | NotEmpty a _ => some a
  | _ => none

end ClosedInterval

/-- `partial_max` (`math.rs` lines 11-17): `a` when `a.partial_cmp(&b)` is
`Greater`, otherwise `b`.  On the linear orders used by the program the
comparison always succeeds, so the `Option` layer is dropped. -/
def pmax {T : Type} [LinearOrder T] (a b : T) : T :=
  if b < a then a else b

/-- `partial_min` (`math.rs` lines 19-25). -/
def pmin {T : Type} [LinearOrder T] (a b : T) : T :=
  if a < b then a else b

namespace ClosedInterval

variable {T : Type} [LinearOrder T]

/-- `ClosedInterval::intersection` (`math.rs` lines 72-93).
`lower`/`upper` are `Some` exactly when both operands are `NotEmpty`
(`get_lower().zip(...)`), mirrored here by the four-way match;
`map_or(Empty, ...)` yields `Empty` whenever the zip is `None`. -/
def intersection (s o : ClosedInterval T) : ClosedInterval T :=
  if !(s.is_interval || o.is_interval) then NotAnInterval
  else
    match s.get_lower, o.get_lower, s.get_upper, o.get_upper with
    | some a, some b, some c, some d =>
        if pmax a b ≤ pmin c d then NotEmpty (pmax a b) (pmin c d) else Empty
    | _, _, _, _ => Empty

/-- An interval value is well formed when its bounds are ordered. -/
def wf : ClosedInterval T → Prop
  | NotEmpty a b => a ≤ b
  | _ => True

end ClosedInterval

/-! ### Helper lemmas for the interval algebra -/

theorem pmax_eq_max {T : Type} [LinearOrder T] (a b : T) : pmax a b = max a b := by
  simp only [pmax, max_def]
  rcases lt_trichotomy a b with h | h | h
  · simp [not_lt.2 h.le, h.le]
  · simp [h]
  · simp [h, not_le.2 h]

theorem pmin_eq_min {T : Type} [LinearOrder T] (a b : T) : pmin a b = min a b := by
  simp only [pmin, min_def]
  rcases lt_trichotomy a b with h | h | h
  · simp [h, h.le]
  · simp [h]
  · simp [not_lt.2 h.le, not_le.2 h]

namespace ClosedInterval

variable {T : Type} [LinearOrder T]

theorem intersection_notEmpty_notEmpty (a b c d : T) :
    intersection (NotEmpty a b) (NotEmpty c d) =
      if max a c ≤ min b d then NotEmpty (max a c) (min b d) else Empty := by
  simp [intersection, is_interval, get_lower, get_upper, pmax_eq_max, pmin_eq_min]

theorem intersection_empty_left (x : ClosedInterval T) :
    intersection Empty x = Empty := by
  cases x <;> rfl

theorem intersection_empty_right (x : ClosedInterval T) :
    intersection x Empty = Empty := by
  cases x <;> rfl

theorem intersection_nai_left (x : ClosedInterval T) :
    intersection NotAnInterval x = if x.is_interval then Empty else NotAnInterval := by
  cases x <;> rfl

theorem intersection_nai_right (x : ClosedInterval T) :
    intersection x NotAnInterval = if x.is_interval then Empty else NotAnInterval := by
  cases x <;> rfl

theorem intersection_comm (A B : ClosedInterval T) :
    intersection A B = intersection B A := by
  cases A with
  | Empty =>
      rw [intersection_empty_left, intersection_empty_right]
  | NotAnInterval =>
      rw [intersection_nai_left, intersection_nai_right]
  | NotEmpty a b =>
      cases B with
      | Empty => rw [intersection_empty_left, intersection_empty_right]
      | NotAnInterval => rw [intersection_nai_left, intersection_nai_right]
      | NotEmpty c d =>
          rw [intersection_notEmpty_notEmpty, intersection_notEmpty_notEmpty,
            max_comm, min_comm]

theorem intersection_assoc (A B C : ClosedInterval T) :
    intersection (intersection A B) C = intersection A (intersection B C) := by
  cases A with
  | Empty =>
      simp only [intersection_empty_left]
  | NotAnInterval =>
      cases B with
      | Empty =>
          simp [is_interval, intersection_empty_left, intersection_nai_left]
      | NotAnInterval =>
          cases C <;> simp [is_interval, intersection_nai_left, intersection_empty_left]
      | NotEmpty c d =>
          cases C with
          | Empty =>
              simp [is_interval, intersection_empty_left, intersection_empty_right,
                intersection_nai_left]
          | NotAnInterval =>
              simp [is_interval, intersection_empty_left, intersection_nai_right,
                intersection_nai_left]
          | NotEmpty e f =>
              rw [intersection_nai_left, intersection_notEmpty_notEmpty]
              by_cases h : max c e ≤ min d f <;>
                simp [h, is_interval, intersection_empty_left, intersection_nai_left]
  | NotEmpty a b =>
      cases B with
      | Empty =>
          simp [intersection_empty_left, intersection_empty_right]
      | NotAnInterval =>
          cases C with
          | Empty =>
              simp [is_interval, intersection_empty_left, intersection_empty_right,
                intersection_nai_right, intersection_nai_left]
          | NotAnInterval =>
              simp [is_interval, intersection_empty_left, intersection_nai_right,
                intersection_nai_left]
          | NotEmpty e f =>
              rw [intersection_nai_right, intersection_nai_left]
              simp [is_interval, intersection_empty_left, intersection_empty_right]
      | NotEmpty c d =>
          cases C with
          | Empty =>
              simp only [intersection_empty_right]
          | NotAnInterval =>
              rw [intersection_nai_right, intersection_nai_right,
                intersection_notEmpty_notEmpty]
              by_cases h : max a c ≤ min b d <;>
                simp [h, is_interval, intersection_empty_right, intersection_nai_right]
          | NotEmpty e f =>
              rw [intersection_notEmpty_notEmpty, intersection_notEmpty_notEmpty]
              by_cases h1 : max a c ≤ min b d
              · by_cases h2 : max c e ≤ min d f
                · rw [if_pos h1, if_pos h2, intersection_notEmpty_notEmpty,
                    intersection_notEmpty_notEmpty, max_assoc, min_assoc]
                · have hn : ¬ (max (max a c) e ≤ min (min b d) f) := by
                    intro hall
                    exact h2 (le_trans (max_le_max (le_max_right a c) le_rfl)
                      (le_trans hall (min_le_min (min_le_right b d) le_rfl)))
                  rw [if_pos h1, if_neg h2, intersection_notEmpty_notEmpty,
                    if_neg hn, intersection_empty_right]
              · by_cases h2 : max c e ≤ min d f
                · have hn : ¬ (max a (max c e) ≤ min b (min d f)) := by
                    intro hall
                    exact h1 (le_trans (max_le_max le_rfl (le_max_left c e))
                      (le_trans hall (min_le_min le_rfl (min_le_left d f))))
                  rw [if_neg h1, if_pos h2, intersection_empty_left,
                    intersection_notEmpty_notEmpty, if_neg hn]
                · rw [if_neg h1, if_neg h2, intersection_empty_left,
                    intersection_empty_right]

theorem intersection_self (A : ClosedInterval T) (hA : A.wf) :
    intersection A A = A := by
  cases A with
  | Empty => rfl
  | NotAnInterval => rfl
  | NotEmpty a b =>
      simp only [wf] at hA
      rw [intersection_notEmpty_notEmpty]
      simp only [max_self, min_self]
      rw [if_pos hA]

end ClosedInterval

/-! ## Claim C7: interval intersection algebra -/

/-- C7: for all closed intervals `A`, `B`, `C` over an ordered type (each
non-empty interval having its lower bound at most its upper bound), interval
intersection is commutative and associative, idempotent, and `Empty` is
absorbing. -/
theorem interval_intersection_algebra {T : Type} [LinearOrder T]
    (A B C : ClosedInterval T) (hA : A.wf) (_hB : B.wf) (_hC : C.wf) :
    A.intersection B = B.intersection A ∧
    (A.intersection B).intersection C = A.intersection (B.intersection C) ∧
    A.intersection A = A ∧
    A.intersection ClosedInterval.Empty = ClosedInterval.Empty := by
  refine ⟨ClosedInterval.intersection_comm A B,
    ClosedInterval.intersection_assoc A B C,
    ClosedInterval.intersection_self A hA,
    ClosedInterval.intersection_empty_right A⟩

/-- Witness for C7 at concrete intervals over `Nat`. -/
theorem interval_intersection_algebra_witness :
    let A : ClosedInterval Nat := ClosedInterval.NotEmpty 1 5
    let B : ClosedInterval Nat := ClosedInterval.NotEmpty 3 8
    let C : ClosedInterval Nat := ClosedInterval.NotEmpty 4 6
    A.wf ∧ B.wf ∧ C.wf ∧
    (A.intersection B = B.intersection A ∧
     (A.intersection B).intersection C = A.intersection (B.intersection C) ∧
     A.intersection A = A ∧
     A.intersection ClosedInterval.Empty = ClosedInterval.Empty) :=
  ⟨show (1 : Nat) ≤ 5 by decide, show (3 : Nat) ≤ 8 by decide,
    show (4 : Nat) ≤ 6 by decide,
    interval_intersection_algebra (ClosedInterval.NotEmpty 1 5)
      (ClosedInterval.NotEmpty 3 8) (ClosedInterval.NotEmpty 4 6)
      (show (1 : Nat) ≤ 5 by decide) (show (3 : Nat) ≤ 8 by decide)
      (show (4 : Nat) ≤ 6 by decide)⟩

/-! ## Claim C8: truncation and rounding bounds -/

/-- C8 as stated claims `|round(t, R) - t| <= R/2`; for odd `R` the code
rounds up already at remainder `R/2` rounded down, overshooting by up to
`(R+1)/2`.  At `t = 1`, `R = 3`: `round(1, 3) = 3` and `2·|3 − 1| = 4 > 3`. -/
theorem time_round_half_bound_counterexample :
    Time.round 1 3 = 3 ∧ ¬(2 * Nat.dist (Time.round 1 3) 1 ≤ 3) := by
  constructor
  · rfl
  · decide

/-- C8 amended: for every `t` and every nonzero resolution `R`,
`truncate(t,R) ≤ t < truncate(t,R) + R`, and the rounding error satisfies
`2·|round(t,R) − t| ≤ R + 1` (equivalently `≤ R/2` whenever `R` is even). -/
theorem time_truncate_round_bounds (t R : Nat) (hR : R ≠ 0) :
    Time.truncate t R ≤ t ∧ t < Time.truncate t R + R ∧
    2 * Nat.dist (Time.round t R) t ≤ R + 1 := by
  have hRpos : 0 < R := Nat.pos_of_ne_zero hR
  obtain ⟨q, r, rfl, hrR⟩ : ∃ q r, t = R * q + r ∧ r < R :=
    ⟨t / R, t % R, (Nat.div_add_mod t R).symm, Nat.mod_lt t hRpos⟩
  have hdiv : (R * q + r) / R = q := by
    rw [Nat.mul_add_div hRpos, Nat.div_eq_of_lt hrR, Nat.add_zero]
  have hmod : (R * q + r) % R = r := by
    rw [Nat.mul_add_mod, Nat.mod_eq_of_lt hrR]
  have hcomm : q * R = R * q := Nat.mul_comm _ _
  refine ⟨?_, ?_, ?_⟩
  · unfold Time.truncate
    rw [hdiv]
    exact le_trans (le_of_eq hcomm) (Nat.le_add_right _ _)
  · unfold Time.truncate
    rw [hdiv, hcomm]
    exact Nat.add_lt_add_left hrR _
  · unfold Time.round
    simp only [hdiv, hmod]
    by_cases h : R / 2 ≤ r
    · rw [if_pos h]
      have he : (q + 1) * R = R * q + R := by ring
      rw [he]
      have hle : R * q + r ≤ R * q + R := Nat.add_le_add_left (le_of_lt hrR) _
      rw [Nat.dist_eq_sub_of_le_right hle, Nat.add_sub_add_left]
      omega
    · rw [if_neg h, hcomm]
      have hle : R * q ≤ R * q + r := Nat.le_add_right _ _
      rw [Nat.dist_eq_sub_of_le hle, Nat.add_sub_cancel_left]
      omega

/-- Witness for C8 at `t = 17`, `R = 5`. -/
theorem time_truncate_round_bounds_witness :
    (5 : Nat) ≠ 0 ∧
    (Time.truncate 17 5 ≤ 17 ∧ 17 < Time.truncate 17 5 + 5 ∧
     2 * Nat.dist (Time.round 17 5) 17 ≤ 5 + 1) :=
  ⟨by decide, time_truncate_round_bounds 17 5 (by decide)⟩

/-! ## Sparse map (`rbf/sparse_map.rs`) and RBF curve (`rbf/mod.rs`)

The Rust `SparseMap` keeps `capacity` buckets of delta-ordered linked lists,
where the bucket of a point is `delta / bucket_size`; iteration concatenates
the buckets in index order, so the observable content is a single
delta-ordered list of points.  The embedding keeps that flattened list
together with the `capacity`, `bucket_size` and `count` fields (all of which
feed back into behaviour: `get` short-circuits past
`bucket_size * capacity`, `update_map` doubles `bucket_size`, and `count`
enters `PartialEq`).  `double_buckets` re-merges buckets pairwise and leaves
the flattened list unchanged, so it appears only as the doubling of
`bucket_size`. -/

/-- `Point` (`rbf/mod.rs` lines 9-22). -/
structure Point where
  delta : Nat
  cost : Nat
deriving DecidableEq, Repr

/-- `Point::new`. -/
def Point.new (delta cost : Nat) : Point := ⟨delta, cost⟩

/-- `SparseMap` (`rbf/sparse_map.rs` lines 6-12), with the bucket vector
flattened into the delta-ordered `points` list (see section comment). -/
structure SparseMap where
  points : List Point
  capacity : Nat
  bucket_size : Nat
  count : Nat
deriving DecidableEq, Repr

/-- The `while p.delta >= bucket_size * capacity` doubling loop of
`SparseMap::update_map` (via `double_buckets`): returns the final
`bucket_size`.  The Rust loop never terminates when `bucket_size * capacity`
is zero; every map built by the program has `bucket_size ≥ 1` and
`capacity ≥ 1`, and the guard `0 < bucket_size * capacity` makes the
function total without changing it on reachable states. -/
def growSizeAux : Nat → Nat → Nat → Nat → Nat
  | 0, _, _, bucket_size => bucket_size
  | fuel + 1, delta, capacity, bucket_size =>
    if 0 < bucket_size * capacity ∧ bucket_size * capacity ≤ delta then
      growSizeAux fuel delta capacity (bucket_size * 2)
    else bucket_size

/-- Entry point of the doubling loop.  `bucket_size * capacity` grows by at
least 1 per iteration while it is `≤ delta`, so `delta + 1` rounds of fuel
always suffice and the fuel never runs out on the guarded loop. -/
def growSize (delta capacity bucket_size : Nat) : Nat :=
  growSizeAux (delta + 1) delta capacity bucket_size

/-- The monotonicity pass of `SparseMap::update_map` (lines 64-99): starting
right after the newly inserted element, remove the run of following elements
whose cost is `≤` the new cost, stopping at the first larger cost.  In the
source the run crosses bucket boundaries, which on the flattened list is
exactly this traversal. -/
def dropLeCost (c : Nat) : List Point → List Point
  | [] => []
  | q :: rest => if q.cost ≤ c then dropLeCost c rest else q :: rest

/-- The insertion scan of `SparseMap::update_map` (lines 28-62): the cursor
walks backwards from the end of the bucket to find the last element with
`delta < p.delta` (insert after it, count + 1) or an element with equal
delta (overwrite, count unchanged); on the delta-sorted flattened list this
is the equivalent front-to-back scan.  Returns the new list and the count
increment, applying `dropLeCost` after the insertion point when
`keep` (= `keep_monotonicity`) is set. -/
def insertScan (p : Point) (keep : Bool) : List Point → List Point × Nat
  | [] => ([p], 1)
  | q :: rest =>
    if p.delta < q.delta then
      (p :: (if keep then dropLeCost p.cost (q :: rest) else q :: rest), 1)
    else if p.delta = q.delta then
      (p :: (if keep then dropLeCost p.cost rest else rest), 0)
    else
      let r := insertScan p keep rest
      (q :: r.1, r.2)

/-- `SparseMap::update_map` (`rbf/sparse_map.rs` lines 23-100). -/
def SparseMap.update_map (m : SparseMap) (p : Point) (keep_monotonicity : Bool) :
    SparseMap :=
  let bs := growSize p.delta m.capacity m.bucket_size
  let r := insertScan p keep_monotonicity m.points
  { points := r.1, capacity := m.capacity, bucket_size := bs,
    count := m.count + r.2 }

/-- `SparseMap::add` (`rbf/sparse_map.rs` lines 15-17). -/
def SparseMap.add (m : SparseMap) (p : Point) : SparseMap :=
  m.update_map p true

/-- `SparseMap::insert` (`rbf/sparse_map.rs` lines 19-21). -/
def SparseMap.insert (m : SparseMap) (p : Point) : SparseMap :=
  m.update_map p false

/-- The bucket scan of `SparseMap::get`: buckets are scanned from the bucket
of `delta` downwards, each in reverse, returning the first element with
`el.delta <= delta`; on the flattened delta-ordered list this is the last
element with `el.delta <= delta`, found here by a forward scan carrying the
best cost so far (`0` when none). -/
def lookupLeFrom (acc delta : Nat) : List Point → Nat
  | [] => acc
  | q :: rest => if q.delta ≤ delta then lookupLeFrom q.cost delta rest else acc

/-- `SparseMap::get` (`rbf/sparse_map.rs` lines 102-116), including the
`if max <= delta return 0` short-circuit for deltas at or beyond
`bucket_size * capacity`. -/
def SparseMap.get (m : SparseMap) (delta : Nat) : Nat :=
  if m.bucket_size * m.capacity ≤ delta then 0
  else lookupLeFrom 0 delta m.points

/-- `SparseMap::new` (`rbf/sparse_map.rs` lines 134-147). -/
def SparseMap.new (capacity : Nat) : SparseMap :=
  { points := [], capacity := capacity, bucket_size := 1, count := 0 }

/-- `RbfCurve` (`rbf/mod.rs` lines 29-37).  `last_arrivals_window` is a
`VecDeque<(Time, Cost)>`, front = oldest. -/
structure RbfCurve where
  last_arrivals_window : List (Nat × Nat)
  window_size : Nat
  curve : SparseMap
  wcet : Nat
  pid : Nat
  prio : Nat
deriving DecidableEq, Repr

/-- `RbfCurve::get` (`rbf/mod.rs` lines 83-85). -/
def RbfCurve.get (r : RbfCurve) (delta : Nat) : Nat :=
  r.curve.get delta

/-- The window walk of `RbfCurve::add_arrival` (lines 52-65): visit the
arrivals from most recent to oldest (the argument list is the reversed
window), accumulate `curr_observed_tot_cost`, and for each visited arrival
at time `arr.1` add the breakpoint `(t - arr.1 + 1, total)` whenever the
total exceeds the currently stored cost at that distance. -/
def addArrivalLoop (t : Nat) (arrs : List (Nat × Nat)) (acc : Nat)
    (curve : SparseMap) : SparseMap :=
  match arrs with
  | [] => curve
  | arr :: rest =>
    let observed_gap := t - arr.1 + 1
    let acc2 := acc + arr.2
    let curve2 :=
      if curve.get observed_gap < acc2 then curve.add (Point.new observed_gap acc2)
      else curve
    addArrivalLoop t rest acc2 curve2

/-- `RbfCurve::add_arrival` (`rbf/mod.rs` lines 40-74).  The source asserts
`t >= self.last_arrivals_window.back()` before anything else; theorems about
reachable curves carry that hypothesis. -/
def RbfCurve.add_arrival (r : RbfCurve) (instant cost : Nat) : RbfCurve :=
  let window2 := r.last_arrivals_window ++ [(instant, cost)]
  let curve2 := addArrivalLoop instant window2.reverse 0 r.curve
  let window3 := if r.window_size < window2.length then window2.tail else window2
  { r with last_arrivals_window := window3, curve := curve2,
           wcet := max r.wcet cost }

/-- `RbfCurve::add_arrivals` (`rbf/mod.rs` lines 76-80). -/
def RbfCurve.add_arrivals (r : RbfCurve) (arrivals : List (Nat × Nat)) : RbfCurve :=
  arrivals.foldl (fun acc a => acc.add_arrival a.1 a.2) r

/-- `RbfCurve::new` (`rbf/mod.rs` lines 145-156): fresh sparse map of
capacity `window_size` seeded with the breakpoint `(0, 0)`. -/
def RbfCurve.new (pid window_size : Nat) : RbfCurve :=
  { last_arrivals_window := [], window_size := window_size,
    curve := (SparseMap.new window_size).add (Point.new 0 0),
    wcet := 0, pid := pid, prio := 0 }

/-- The merge loop of `RbfCurve::sum` (`rbf/mod.rs` lines 87-135), with the
two tail blocks folded into the one-sided cases: each step inserts the
summed point with the lowest delta into the accumulating curve (which
starts as the unmodified `self.curve`) and advances the corresponding
iterator(s), maintaining `last_cost_1` / `last_cost_2` exactly as the
source does — including setting both to the combined sum in the
equal-delta branch. -/
def sumLoopAux : Nat → SparseMap → List Point → List Point → Nat → Nat → SparseMap
  | 0, curve, _, _, _, _ => curve
  | fuel + 1, curve, l1, l2, lc1, lc2 =>
    match l1, l2 with
    | [], [] => curve
    | p1 :: r1, [] =>
        sumLoopAux fuel (curve.insert (Point.new p1.delta (p1.cost + lc2)))
          r1 [] p1.cost lc2
    | [], p2 :: r2 =>
        sumLoopAux fuel (curve.insert (Point.new p2.delta (p2.cost + lc1)))
          [] r2 lc1 p2.cost
    | p1 :: r1, p2 :: r2 =>
        if p1.delta = p2.delta then
          sumLoopAux fuel (curve.insert (Point.new p1.delta (p1.cost + p2.cost)))
            r1 r2 (p1.cost + p2.cost) (p1.cost + p2.cost)
        else if p1.delta < p2.delta then
          sumLoopAux fuel (curve.insert (Point.new p1.delta (p1.cost + lc2)))
            r1 (p2 :: r2) p1.cost lc2
        else
          sumLoopAux fuel (curve.insert (Point.new p2.delta (p2.cost + lc1)))
            (p1 :: r1) r2 lc1 p2.cost

/-- Entry point of the merge loop.  Every iteration consumes at least one
point, so `l1.length + l2.length` rounds of fuel are exact: the zero-fuel
fallback is reached only with both lists empty. -/
def sumLoop (curve : SparseMap) (l1 l2 : List Point) (lc1 lc2 : Nat) : SparseMap :=
  sumLoopAux (l1.length + l2.length) curve l1 l2 lc1 lc2

/-- `RbfCurve::sum` (`rbf/mod.rs` lines 87-135): merge a clone of
`self.curve` with `other.curve`, inserting the summed points back into
`self.curve` (which therefore starts off still holding all of `self`'s
breakpoints). -/
def RbfCurve.sum (r other : RbfCurve) : RbfCurve :=
  { r with curve := sumLoop r.curve r.curve.points other.curve.points 0 0 }

/-! ## Claim C1: RBF curve monotonicity -/

/-- The claim's iteration property, as an executable check: consecutive
stored breakpoints have non-decreasing cost. -/
def costsNonDecreasing : List Point → Bool
  | [] => true
  | [_] => true
  | p :: q :: rest => decide (p.cost ≤ q.cost) && costsNonDecreasing (q :: rest)

/-- The claim's iteration property: consecutive stored breakpoints have
strictly increasing delta. -/
def deltasStrictIncreasing : List Point → Bool
  | [] => true
  | [_] => true
  | p :: q :: rest => decide (p.delta < q.delta) && deltasStrictIncreasing (q :: rest)

/-- An RBF extractor with window size 2 fed the monotone arrival sequence
`(0,100), (1,100), (100,1)` (each instant at least the previous one, so the
`add_arrival` assertion holds). -/
def rbfC1 : RbfCurve :=
  (((RbfCurve.new 1 2).add_arrival 0 100).add_arrival 1 100).add_arrival 100 1

/-- C1 fails on the code: `SparseMap::get` returns `0` for any delta at or
beyond `bucket_size * capacity`, so `add_arrival`'s `sum > get(gap)` guard
is bypassed for gaps past the current bucket range and a breakpoint with a
*smaller* cost than an earlier one is inserted (the monotonicity pass only
removes points *after* the insertion).  After the three arrivals above the
stored curve contains `(2, 200)` followed by `(100, 101)`: the cost
decreases, contradicting both the claim and the source's own stated
monotonicity invariant, whereas the map is still strictly sorted in delta
and still contains `(0, 0)`. -/
theorem rbf_curve_monotonicity_failure :
    rbfC1.curve.points =
      [Point.new 0 0, Point.new 1 100, Point.new 2 200,
       Point.new 100 101, Point.new 101 201] ∧
    costsNonDecreasing rbfC1.curve.points = false ∧
    deltasStrictIncreasing rbfC1.curve.points = true ∧
    Point.new 0 0 ∈ rbfC1.curve.points := by
  refine ⟨by decide, by decide, by decide, by decide⟩

/-! ## Claim C6: sparse-map sum -/

/-- Curve `A` of the C6 refutation, built from the valid arrival sequence
`(0,10), (5,10)` with window size 10: breakpoints `(0,0), (1,10), (6,20)`. -/
def rbfSumA : RbfCurve :=
  ((RbfCurve.new 1 10).add_arrival 0 10).add_arrival 5 10

/-- Curve `B` of the C6 refutation, built from the single arrival `(0,100)`:
breakpoints `(0,0), (1,100)`. -/
def rbfSumB : RbfCurve :=
  (RbfCurve.new 2 10).add_arrival 0 100

/-- Evaluation of a breakpoint list as the claim defines it: the cost of
the greatest stored breakpoint `≤ delta`, or `0` if none exists. -/
def curveEval (points : List Point) (delta : Nat) : Nat :=
  lookupLeFrom 0 delta points

/-- C6 fails on the code: in the equal-delta branch of the `sum` merge loop
both `last_cost_1` and `last_cost_2` are set to the *combined* cost
`p_1.cost + p_2.cost` instead of the per-curve costs, so every later
one-sided breakpoint double-counts the other curve's contribution.  Both
curves here come from valid arrival sequences and share the breakpoint
delta `1`; the summed curve stores `(6, 130)` although
`A(6) + B(6) = 20 + 100 = 120`. -/
theorem rbf_sum_pointwise_failure_eval :
    (rbfSumA.sum rbfSumB).curve.points =
      [Point.new 0 0, Point.new 1 110, Point.new 6 130] ∧
    curveEval rbfSumA.curve.points 6 = 20 ∧
    curveEval rbfSumB.curve.points 6 = 100 ∧
    curveEval ((rbfSumA.sum rbfSumB).curve.points) 6 = 130 ∧
    (130 : Nat) ≠ 20 + 100 := by
  refine ⟨by decide, by decide, by decide, by decide, by decide⟩

/-! ## Claim C9: identical arrivals at `t = 0` -/

/-- `n` identical arrivals `(t, c) = (0, 10)` fed to a fresh RBF curve of
window size `W` (as the RBF extractor does for `n` identical jobs). -/
def rbfIdentical : Nat → Nat → RbfCurve
  | 0, W => RbfCurve.new 0 W
  | n + 1, W => (rbfIdentical n W).add_arrival 0 10

/-- C9 as stated expects the bursty curve `(0,0), (1,10), (2,20), (3,30)`
for three identical arrivals at `t = 0` with cost 10.  The distance of an
arrival from itself is `0 - 0 + 1 = 1`, so every arrival lands on the same
breakpoint delta `1` and the curve collapses to `(0,0), (1,30)` (with the
default window size 1000). -/
theorem rbf_identical_arrivals_counterexample :
    (rbfIdentical 3 1000).curve.points = [Point.new 0 0, Point.new 1 30] ∧
    (rbfIdentical 3 1000).curve.points ≠
      [Point.new 0 0, Point.new 1 10, Point.new 2 20, Point.new 3 30] := by
  refine ⟨by decide, by decide⟩

/-- Window walk over `m` identical `(0, 10)` arrivals on a curve whose only
breakpoints are `(0,0)` and `(1,c)`: every visited gap is `1`, so the walk
just raises the delta-1 breakpoint to the running total when that exceeds
`c`. -/
theorem addArrivalLoop_replicate (W : Nat) (hW : 2 ≤ W) :
    ∀ m acc c, acc ≤ c →
      addArrivalLoop 0 (List.replicate m (0, 10)) acc
        ⟨[Point.new 0 0, Point.new 1 c], W, 1, 2⟩ =
      ⟨[Point.new 0 0, Point.new 1 (max c (acc + 10 * m))], W, 1, 2⟩ := by
  intro m
  induction m with
  | zero =>
      intro acc c hac
      simp only [List.replicate, addArrivalLoop, Nat.mul_zero, Nat.add_zero]
      rw [max_eq_left hac]
  | succ m ih =>
      intro acc c hac
      rw [List.replicate_succ]
      simp only [addArrivalLoop]
      have hgap : (0 : Nat) - 0 + 1 = 1 := rfl
      have hget : SparseMap.get ⟨[Point.new 0 0, Point.new 1 c], W, 1, 2⟩ 1 = c := by
        simp only [SparseMap.get]
        rw [if_neg (by omega : ¬ (1 * W ≤ 1))]
        simp [lookupLeFrom, Point.new]
      rw [hgap, hget]
      by_cases hc : c < acc + 10
      · rw [if_pos hc]
        have hadd : SparseMap.add ⟨[Point.new 0 0, Point.new 1 c], W, 1, 2⟩
            (Point.new 1 (acc + 10)) =
            ⟨[Point.new 0 0, Point.new 1 (acc + 10)], W, 1, 2⟩ := by
          simp only [SparseMap.add, SparseMap.update_map, growSize, growSizeAux,
            insertScan, dropLeCost, Point.new]
          rw [if_neg (by omega : ¬ (0 < 1 * W ∧ 1 * W ≤ 1))]
          norm_num
        rw [hadd, ih (acc + 10) (acc + 10) le_rfl]
        have h1 : max (acc + 10) (acc + 10 + 10 * m) = acc + 10 + 10 * m := by omega
        rw [h1]
        have h2 : max c (acc + 10 * (m + 1)) = acc + 10 + 10 * m := by omega
        rw [h2]
      · rw [if_neg hc]
        rw [ih (acc + 10) c (by omega)]
        have h3 : max c (acc + 10 + 10 * m) = max c (acc + 10 * (m + 1)) := by omega
        rw [h3]

/-- Full state after `n ≥ 1` identical `(0, 10)` arrivals (window size
`W ≥ 2`): the window holds `min n W` copies, and the curve is exactly
`(0,0), (1, 10·min(n, W+1))` — during the walk of arrival `k` the window
still holds `min(k, W+1)` entries, since trimming happens afterwards. -/
theorem rbfIdentical_state (W : Nat) (hW : 2 ≤ W) :
    ∀ n, 1 ≤ n →
      rbfIdentical n W =
        { last_arrivals_window := List.replicate (min n W) (0, 10),
          window_size := W,
          curve := ⟨[Point.new 0 0, Point.new 1 (10 * min n (W + 1))], W, 1, 2⟩,
          wcet := 10, pid := 0, prio := 0 } := by
  intro n
  induction n with
  | zero => omega
  | succ n ih =>
      intro _
      by_cases hn : 1 ≤ n
      · have hstep := ih hn
        show (rbfIdentical n W).add_arrival 0 10 = _
        rw [hstep]
        simp only [RbfCurve.add_arrival]
        rw [← List.replicate_succ' (min n W)]
        rw [List.reverse_replicate]
        rw [addArrivalLoop_replicate W hW (min n W + 1) 0 (10 * min n (W + 1))
          (Nat.zero_le _)]
        have hcost : max (10 * min n (W + 1)) (0 + 10 * (min n W + 1)) =
            10 * min (n + 1) (W + 1) := by omega
        rw [hcost]
        have hlen : (List.replicate (min n W + 1) ((0 : Nat), (10 : Nat))).length =
            min n W + 1 := List.length_replicate _ _
        by_cases hWn : W ≤ n
        · have htrim : W < (List.replicate (min n W + 1) ((0 : Nat), (10 : Nat))).length := by
            rw [hlen]; omega
          rw [if_pos htrim]
          have h1 : min n W = W := by omega
          have h2 : min (n + 1) W = W := by omega
          rw [h1, h2]
          simp [List.replicate_succ]
        · have htrim : ¬ (W < (List.replicate (min n W + 1) ((0 : Nat), (10 : Nat))).length) := by
            rw [hlen]; omega
          rw [if_neg htrim]
          have h2 : min (n + 1) W = min n W + 1 := by omega
          rw [h2]
          simp
      · have hn0 : n = 0 := by omega
        subst hn0
        show (RbfCurve.new 0 W).add_arrival 0 10 = _
        have hnew : RbfCurve.new 0 W =
            { last_arrivals_window := [], window_size := W,
              curve := ⟨[Point.new 0 0], W, 1, 1⟩,
              wcet := 0, pid := 0, prio := 0 } := by
          simp only [RbfCurve.new, SparseMap.new, SparseMap.add, SparseMap.update_map,
            growSize, growSizeAux, insertScan, Point.new]
          rw [if_neg (by omega : ¬ (0 < 1 * W ∧ 1 * W ≤ 0))]
        rw [hnew]
        simp only [RbfCurve.add_arrival, List.nil_append, List.reverse_cons,
          List.reverse_nil, addArrivalLoop]
        have hget : SparseMap.get ⟨[Point.new 0 0], W, 1, 1⟩ (0 - 0 + 1) = 0 := by
          simp only [SparseMap.get]
          rw [if_neg (by omega : ¬ (1 * W ≤ 0 - 0 + 1))]
          simp [lookupLeFrom, Point.new]
        rw [hget]
        rw [if_pos (by omega : 0 + 10 > 0)]
        have hadd : SparseMap.add ⟨[Point.new 0 0], W, 1, 1⟩
            (Point.new (0 - 0 + 1) (0 + 10)) =
            ⟨[Point.new 0 0, Point.new 1 10], W, 1, 2⟩ := by
          simp only [SparseMap.add, SparseMap.update_map, growSize, growSizeAux,
            insertScan, dropLeCost, Point.new]
          rw [if_neg (by omega : ¬ (0 < 1 * W ∧ 1 * W ≤ 0 - 0 + 1))]
          norm_num
        rw [hadd]
        have h1 : min 1 W = 1 := by omega
        have h2 : min 1 (W + 1) = 1 := by omega
        rw [h1, h2]
        have hlen1 : ¬ (W < ([((0 : Nat), (10 : Nat))]).length) := by simp; omega
        rw [if_neg hlen1]
        norm_num [List.replicate]

/-- C9 amended: `n ≥ 1` identical arrivals at `t = 0` with cost 10 (window
size `W ≥ 2`) yield exactly the two breakpoints `(0, 0)` and
`(1, 10·min(n, W+1))`: all the cost accumulates at distance 1, saturating
once the window is full. -/
theorem rbf_identical_arrivals_curve (n W : Nat) (hW : 2 ≤ W) (hn : 1 ≤ n) :
    (rbfIdentical n W).curve.points =
      [Point.new 0 0, Point.new 1 (10 * min n (W + 1))] := by
  rw [rbfIdentical_state W hW n hn]

/-- Witness for the amended C9 at `n = 3`, `W = 1000`. -/
theorem rbf_identical_arrivals_curve_witness :
    2 ≤ 1000 ∧ 1 ≤ 3 ∧
    (rbfIdentical 3 1000).curve.points =
      [Point.new 0 0, Point.new 1 (10 * min 3 (1000 + 1))] :=
  ⟨by decide, by decide, rbf_identical_arrivals_curve 3 1000 (by decide) (by decide)⟩

/-! ## Trace events and the trace container (`trace.rs`) -/

/-- `TraceEventType` (`trace.rs` lines 8-15). -/
inductive TraceEventType where
  | Activation
  | Deactivation
  | Preemption
  | Dispatch
  | Exit
deriving DecidableEq, Repr

/-- `TraceEvent` (`trace.rs` lines 29-34). -/
structure TraceEvent where
  etype : TraceEventType
  pid : Nat
  instant : Nat
deriving DecidableEq, Repr

/-- Modelled from the spec: the event-kind predicate used by `job.rs` and
`periodic.rs`; `TraceEvent::is_activation` and its siblings are exported by
the core crate but their definitions are not among the provided sources —
each tests the corresponding `etype`. -/
def TraceEvent.is_activation (e : TraceEvent) : Bool :=
  match e.etype with
  | TraceEventType.Activation => true
  | _ => false

/-- Modelled from the spec (see `TraceEvent.is_activation`). -/
def TraceEvent.is_deactivation (e : TraceEvent) : Bool :=
  match e.etype with
  | TraceEventType.Deactivation => true
  | _ => false

/-- Modelled from the spec (see `TraceEvent.is_activation`). -/
def TraceEvent.is_dispatch (e : TraceEvent) : Bool :=
  match e.etype with
  | TraceEventType.Dispatch => true
  | _ => false

/-- Modelled from the spec (see `TraceEvent.is_activation`). -/
def TraceEvent.is_preemption (e : TraceEvent) : Bool :=
  match e.etype with
  | TraceEventType.Preemption => true
  | _ => false

/-- `Trace` (`trace.rs` lines 61-64). -/
structure Trace where
  events : List TraceEvent
deriving DecidableEq, Repr

/-- The payload of `TraceError::Monotonocity` (`trace.rs` lines 66-71).
The `IO` and `YAMLParsing` variants belong to the out-of-scope file
boundary and are not modelled. -/
structure MonotonocityError where
  pos : Nat
  prev : TraceEvent
  event : TraceEvent
deriving DecidableEq, Repr

/-- `Trace::push` (`trace.rs` lines 86-99) in state-passing form: the pair
is (result, trace after the call); on error the trace component is the
unchanged input, mirroring `&mut self` being left untouched by the early
return. -/
def Trace.push (tr : Trace) (e : TraceEvent) :
    Except MonotonocityError Unit × Trace :=
  match tr.events.getLast? with
  | some prev =>
      if e.instant < prev.instant then
        (Except.error ⟨tr.events.length, prev, e⟩, tr)
      else
        (Except.ok (), ⟨tr.events ++ [e]⟩)
  | none => (Except.ok (), ⟨tr.events ++ [e]⟩)

/-! ## Claim C5: trace monotonicity checking -/

/-- The ordering rule exactly as claim C5 states it (written from the
spec's words, to compare against the code): after `prev`, an event is
admissible when its instant strictly increases, or when the instants are
equal and the pair is the Activation/Dispatch combination that may share a
timestamp. -/
def claimAdmissible (prev e : TraceEvent) : Prop :=
  prev.instant < e.instant ∨
    (prev.instant = e.instant ∧
      ((prev.etype = TraceEventType.Activation ∧
        e.etype = TraceEventType.Dispatch) ∨
       (prev.etype = TraceEventType.Dispatch ∧
        e.etype = TraceEventType.Activation)))

/-- C5 fails on the code: `Trace::push` only rejects strict decreases of
`instant` (`prev.instant > e.instant`), never equal timestamps of other
event kinds.  Pushing `Exit` at `t = 5` after a `Deactivation` at `t = 5`
violates the claim's ordering rule, yet the code appends it and returns
`Ok`. -/
theorem trace_push_equal_timestamp_counterexample :
    ¬ claimAdmissible ⟨TraceEventType.Deactivation, 0, 5⟩
        ⟨TraceEventType.Exit, 0, 5⟩ ∧
    Trace.push ⟨[⟨TraceEventType.Deactivation, 0, 5⟩]⟩
        ⟨TraceEventType.Exit, 0, 5⟩ =
      (Except.ok (),
       ⟨[⟨TraceEventType.Deactivation, 0, 5⟩, ⟨TraceEventType.Exit, 0, 5⟩]⟩) := by
  refine ⟨?_, rfl⟩
  unfold claimAdmissible
  decide

/-- C5 amended: `push` returns the `Monotonocity` error — carrying the
would-be position `events.len()`, the previous event and the offending
event — and leaves the stored sequence unchanged, exactly when the pushed
event's instant is strictly below the last stored event's instant; any
weakly monotone event (equal timestamps included, whatever the kinds) is
appended with `Ok`. -/
theorem trace_push_characterization (tr : Trace) (e : TraceEvent) :
    (∀ prev, tr.events.getLast? = some prev → e.instant < prev.instant →
        tr.push e = (Except.error ⟨tr.events.length, prev, e⟩, tr)) ∧
    (∀ prev, tr.events.getLast? = some prev → prev.instant ≤ e.instant →
        tr.push e = (Except.ok (), ⟨tr.events ++ [e]⟩)) ∧
    (tr.events.getLast? = none → tr.push e = (Except.ok (), ⟨tr.events ++ [e]⟩)) := by
  refine ⟨?_, ?_, ?_⟩
  · intro prev hlast hlt
    simp only [Trace.push, hlast]
    rw [if_pos hlt]
  · intro prev hlast hle
    simp only [Trace.push, hlast]
    rw [if_neg (not_lt.mpr hle)]
  · intro hlast
    simp only [Trace.push, hlast]

/-- Witness for the amended C5: a strictly decreasing push is rejected in
place, a weakly monotone one is appended. -/
theorem trace_push_characterization_witness :
    Trace.push ⟨[⟨TraceEventType.Activation, 0, 3⟩]⟩ ⟨TraceEventType.Exit, 0, 1⟩ =
      (Except.error ⟨1, ⟨TraceEventType.Activation, 0, 3⟩,
        ⟨TraceEventType.Exit, 0, 1⟩⟩,
       ⟨[⟨TraceEventType.Activation, 0, 3⟩]⟩) ∧
    Trace.push ⟨[⟨TraceEventType.Activation, 0, 3⟩]⟩ ⟨TraceEventType.Exit, 0, 7⟩ =
      (Except.ok (),
       ⟨[⟨TraceEventType.Activation, 0, 3⟩, ⟨TraceEventType.Exit, 0, 7⟩]⟩) :=
  ⟨(trace_push_characterization ⟨[⟨TraceEventType.Activation, 0, 3⟩]⟩
      ⟨TraceEventType.Exit, 0, 1⟩).1 ⟨TraceEventType.Activation, 0, 3⟩
      (by rfl) (by decide),
   (trace_push_characterization ⟨[⟨TraceEventType.Activation, 0, 3⟩]⟩
      ⟨TraceEventType.Exit, 0, 7⟩).2.1 ⟨TraceEventType.Activation, 0, 3⟩
      (by rfl) (by decide)⟩

/-! ## Job extractor (`job.rs`) -/

/-- Modelled from the spec: `Job` (spec section 3) —
`{execution_time, arrived_at, completed_at, preemption_time}`; the struct
is exported by the core crate's `model.rs` but its definition is not among
the provided sources. -/
structure Job where
  execution_time : Nat
  arrived_at : Nat
  completed_at : Nat
  preemption_time : Nat
deriving DecidableEq, Repr

/-- `JobExtractor` (`job.rs` lines 5-9). -/
structure JobExtractor where
  last_event : Option TraceEvent
  last_activation : Option TraceEvent
  preemption_time : Nat
deriving DecidableEq, Repr

/-- `JobExtractor::new` (`job.rs` lines 12-18). -/
def JobExtractor.new : JobExtractor :=
  { last_event := none, last_activation := none, preemption_time := 0 }

/-- The tail of `push_event` past the early-returning deactivation branch:
the dispatch block — which *assigns* `event.instant - last_event.instant`
to `preemption_time` when the previous event was a Preemption (it does not
add to the accumulator) — followed by the final `last_event` update and
`None` result. -/
def JobExtractor.pushRest (s : JobExtractor) (event : TraceEvent) :
    JobExtractor × Option Job :=
  let s2 :=
    if event.is_dispatch then
      match s.last_event with
      | some le =>
          if le.is_preemption then
            { s with preemption_time := event.instant - le.instant }
          else s
      | none => s
    else s
  ({ s2 with last_event := some event }, none)

/-- `JobExtractor::push_event` (`job.rs` lines 23-55).  The source asserts
`last_activation.instant <= event.instant` (and, in the dispatch block,
`last_event.instant <= event.instant`) before the subtractions; theorems
about reachable runs carry those guards as hypotheses. -/
def JobExtractor.push_event (s0 : JobExtractor) (event : TraceEvent) :
    JobExtractor × Option Job :=
  let s1 :=
    if event.is_activation then
      { s0 with preemption_time := 0, last_activation := some event }
    else s0
  if event.is_deactivation then
    match s1.last_activation with
    | some la =>
        ({ s1 with last_event := some event },
         some { execution_time := event.instant - la.instant - s1.preemption_time,
                arrived_at := la.instant,
                completed_at := event.instant,
                preemption_time := s1.preemption_time })
    | none => s1.pushRest event
  else s1.pushRest event

/-- Feed a list of events through a fresh job extractor, collecting the
per-event results. -/
def runJobExtractor (events : List TraceEvent) :
    JobExtractor × List (Option Job) :=
  events.foldl (fun acc e =>
    let r := acc.1.push_event e
    (r.1, acc.2 ++ [r.2])) (JobExtractor.new, [])

/-! ## Claim C4: preemption-time accounting -/

/-- C4 fails on the code: the dispatch block *overwrites* `preemption_time`
with the latest gap instead of adding it.  For the job
`Activation(0), Dispatch(0), Preemption(2), Dispatch(3), Preemption(5),
Dispatch(7), Deactivation(10)` the two preemption gaps are `3 − 2 = 1` and
`7 − 5 = 2`; the claim requires `preemption_time = 3` (and
`execution_time = 7`), but the emitted job carries `preemption_time = 2`
and `execution_time = 8`. -/
theorem job_preemption_time_overwrite_eval :
    (runJobExtractor
      [⟨TraceEventType.Activation, 0, 0⟩, ⟨TraceEventType.Dispatch, 0, 0⟩,
       ⟨TraceEventType.Preemption, 0, 2⟩, ⟨TraceEventType.Dispatch, 0, 3⟩,
       ⟨TraceEventType.Preemption, 0, 5⟩, ⟨TraceEventType.Dispatch, 0, 7⟩,
       ⟨TraceEventType.Deactivation, 0, 10⟩]).2 =
      [none, none, none, none, none, none,
       some { execution_time := 8, arrived_at := 0, completed_at := 10,
              preemption_time := 2 }] ∧
    (2 : Nat) ≠ (3 - 2) + (7 - 5) := by
  refine ⟨by decide, by decide⟩

/-! ## Claim C10: the remembered activation is never cleared -/

/-- C10: emitting a job does not clear `last_activation`, so every
Deactivation pushed while an Activation is remembered returns a job whose
`arrived_at` is that activation's instant — in particular
`Activation(t0), Deactivation(t1), Deactivation(t2)` yields two jobs, both
with `arrived_at = t0`.  (The `a.instant ≤ e.instant` hypotheses mirror the
source's assertions on those paths.) -/
theorem job_extractor_activation_persistence :
    (∀ (s : JobExtractor) (e a : TraceEvent),
        s.last_activation = some a →
        e.etype = TraceEventType.Deactivation →
        a.instant ≤ e.instant →
        ∃ j, (s.push_event e).2 = some j ∧ j.arrived_at = a.instant ∧
          (s.push_event e).1.last_activation = some a) ∧
    (∀ (pid t0 t1 t2 : Nat), t0 ≤ t1 → t1 ≤ t2 →
        (runJobExtractor
          [⟨TraceEventType.Activation, pid, t0⟩,
           ⟨TraceEventType.Deactivation, pid, t1⟩,
           ⟨TraceEventType.Deactivation, pid, t2⟩]).2 =
          [none,
           some { execution_time := t1 - t0, arrived_at := t0,
                  completed_at := t1, preemption_time := 0 },
           some { execution_time := t2 - t0, arrived_at := t0,
                  completed_at := t2, preemption_time := 0 }]) := by
  constructor
  · intro s e a hla he _hle
    have hact : e.is_activation = false := by
      simp [TraceEvent.is_activation, he]
    have hdea : e.is_deactivation = true := by
      simp [TraceEvent.is_deactivation, he]
    simp [JobExtractor.push_event, hact, hdea, hla]
  · intro pid t0 t1 t2 h01 h12
    simp [runJobExtractor, JobExtractor.push_event, JobExtractor.pushRest,
      TraceEvent.is_activation, TraceEvent.is_deactivation,
      TraceEvent.is_dispatch, TraceEvent.is_preemption]

/-- Witness for C10: the persistence branch applied at a concrete state and
event, and the three-event schema at `t0, t1, t2 = 2, 5, 9`. -/
theorem job_extractor_activation_persistence_witness :
    (∃ j, ((JobExtractor.mk none (some ⟨TraceEventType.Activation, 0, 2⟩) 0).push_event
        ⟨TraceEventType.Deactivation, 0, 5⟩).2 = some j ∧
      j.arrived_at = 2 ∧
      ((JobExtractor.mk none (some ⟨TraceEventType.Activation, 0, 2⟩) 0).push_event
        ⟨TraceEventType.Deactivation, 0, 5⟩).1.last_activation =
        some ⟨TraceEventType.Activation, 0, 2⟩) ∧
    (runJobExtractor
      [⟨TraceEventType.Activation, 3, 2⟩, ⟨TraceEventType.Deactivation, 3, 5⟩,
       ⟨TraceEventType.Deactivation, 3, 9⟩]).2 =
      [none,
       some { execution_time := 3, arrived_at := 2, completed_at := 5,
              preemption_time := 0 },
       some { execution_time := 7, arrived_at := 2, completed_at := 9,
              preemption_time := 0 }] :=
  ⟨job_extractor_activation_persistence.1
      (JobExtractor.mk none (some ⟨TraceEventType.Activation, 0, 2⟩) 0)
      ⟨TraceEventType.Deactivation, 0, 5⟩ ⟨TraceEventType.Activation, 0, 2⟩
      rfl rfl (by decide),
   job_extractor_activation_persistence.2 3 2 5 9 (by decide) (by decide)⟩

/-! ## Periodic task extractor (`periodic.rs`) -/

/-- Modelled from the spec: `PeriodicTask` (spec section 3) —
`{period, offset, jitter, wcet}`; the struct is exported by the core
crate's `model.rs` but its definition is not among the provided sources.
Rust's `Default` zeroes every field (`PeriodicTask.default`). -/
structure PeriodicTask where
  period : Nat
  offset : Nat
  jitter : Nat
  wcet : Nat
deriving DecidableEq, Repr

/-- `PeriodicTask::default()`: all fields zero. -/
def PeriodicTask.default : PeriodicTask := ⟨0, 0, 0, 0⟩

/-- The `AllocRingBuffer` of the external `ringbuffer` crate, as the
extractor uses it: fixed capacity, `push` drops the oldest element when
full, `get i` indexes from the oldest, `back` is the newest.  Modelled as
the capacity plus the live contents, oldest first. -/
structure RingBuffer (α : Type) where
  cap : Nat
  data : List α
deriving DecidableEq, Repr

/-- `RingBuffer::push`: append, dropping the oldest element when full. -/
def RingBuffer.push {α : Type} (b : RingBuffer α) (x : α) : RingBuffer α :=
  if b.data.length = b.cap then ⟨b.cap, b.data.tail ++ [x]⟩
  else ⟨b.cap, b.data ++ [x]⟩

def nextPowerOfTwoAux : Nat → Nat → Nat → Nat
  | 0, _, power => power
  | fuel + 1, n, power =>
    if power < n then nextPowerOfTwoAux fuel n (power * 2) else power

/-- Rust's `usize::next_power_of_two`: the least power of two `≥ n`
(`1` for `n = 0`), written with fuel `n`, which always suffices since the
power at least doubles each round. -/
def nextPow2 (n : Nat) : Nat := nextPowerOfTwoAux n n 1

def floorLog10Aux : Nat → Nat → Nat
  | 0, _ => 0
  | fuel + 1, n => if 10 ≤ n then floorLog10Aux fuel (n / 10) + 1 else 0

/-- `(n as f64).log10() as u32` from `find_period`, for the powers of ten
the program uses as resolutions: the floor of the base-10 logarithm
(exact in `f64` for every power of ten below `2^53`). -/
def floorLog10 (n : Nat) : Nat := floorLog10Aux n n

/-- `PeriodicTaskExtractor` (`periodic.rs` lines 26-42).  `periodic.rs`
imports `math::Interval`, the crate's alias (not among the provided
sources) for the `ClosedInterval` of `math.rs`, used through
`Interval::closed`, `intersection`, `is_empty`, `get_lower`, `get_upper`. -/
structure PeriodicTaskExtractor where
  resolution : Nat
  j_max : Nat
  activation_history : RingBuffer TraceEvent
  still_periodic : Bool
  current_model : Option PeriodicTask
  average_gap : Nat
  wcet : Nat
  curr_period_range : Option (ClosedInterval Nat)
  job_detector : JobExtractor
  last_job : Option Job
deriving DecidableEq, Repr

/-- `PeriodicTaskExtractor::new` (`periodic.rs` lines 45-62):
the activation ring buffer holds the next power of two above
`2·(j_max / resolution) + 1` events. -/
def PeriodicTaskExtractor.new (j_max resolution : Nat) : PeriodicTaskExtractor :=
  let history_size_target := 2 * (j_max / resolution) + 1
  let history_size := nextPow2 history_size_target
  { resolution := resolution, j_max := j_max,
    activation_history := ⟨history_size, []⟩,
    still_periodic := false, average_gap := 0, curr_period_range := none,
    current_model := none, job_detector := JobExtractor.new, wcet := 0,
    last_job := none }

/-- `update_period_range` (`periodic.rs` lines 64-86): intersect the
running feasible interval with `[max(1, avg − err), avg + err]`,
`err = j_max / event_count`. -/
def PeriodicTaskExtractor.update_period_range (s : PeriodicTaskExtractor) :
    PeriodicTaskExtractor :=
  let event_count := s.activation_history.data.length - 1
  if 0 < event_count then
    let err := s.j_max / event_count
    let upper := s.average_gap + err
    let lower := if err < s.average_gap then s.average_gap - err else 1
    let obs_period_range := ClosedInterval.closed lower upper
    let new_period_range :=
      match s.curr_period_range with
      | none => obs_period_range
      | some prev => prev.intersection obs_period_range
    { s with curr_period_range := some new_period_range }
  else s

/-- `push_activation_and_update_average_gap` (`periodic.rs` lines 88-110).
The `unwrap`s on `back()` / `get(0)` / `get(1)` are guarded by the caller
(the history is non-empty, and the full branch implies at least two
entries); the `getD` defaults model only those unreachable panics. -/
def PeriodicTaskExtractor.push_activation_and_update_average_gap
    (s : PeriodicTaskExtractor) (event : TraceEvent) : PeriodicTaskExtractor :=
  let back := (s.activation_history.data.getLast?).getD
    ⟨TraceEventType.Activation, 0, 0⟩
  let new_diff := event.instant - back.instant
  let k0 := s.activation_history.data.length - 1
  let new_average_gap :=
    if s.activation_history.data.length = s.activation_history.cap then
      let g1 := (s.activation_history.data.get? 1).getD
        ⟨TraceEventType.Activation, 0, 0⟩
      let g0 := (s.activation_history.data.get? 0).getD
        ⟨TraceEventType.Activation, 0, 0⟩
      let oldest_diff := g1.instant - g0.instant
      s.average_gap + new_diff / k0 - oldest_diff / k0
    else
      let k := k0 + 1
      s.average_gap + new_diff / k - s.average_gap / k
  { s with activation_history := s.activation_history.push event,
           average_gap := new_average_gap }

/-- The `magnitude` countdown of `find_period`: `10, 9, …, min_magnitude`
(empty when `min_magnitude > 10`, matching the loop guard). -/
def magnitudeList (min_magnitude : Nat) : List Nat :=
  (List.range (10 + 1 - min_magnitude)).map (fun i => 10 - i)

/-- `find_period` (`periodic.rs` lines 112-143): snap the moving average
to the coarsest power-of-ten granularity that stays inside the feasible
interval; if none down to the resolution's magnitude fits, fall back to
`round(average_gap, resolution)` — which may land outside the interval.
The `unwrap`s on `curr_period_range` are reachable only with the range
present (`getD` defaults model the panics); the trailing
`assert!(model.period >= 1)` is a source runtime check, not modelled. -/
def PeriodicTaskExtractor.find_period (s : PeriodicTaskExtractor) :
    PeriodicTaskExtractor :=
  match s.current_model with
  | none => s
  | some model =>
    let interval_left :=
      ((s.curr_period_range.getD ClosedInterval.Empty).get_lower).getD 0
    let interval_right :=
      ((s.curr_period_range.getD ClosedInterval.Empty).get_upper).getD 0
    let min_magnitude := floorLog10 s.resolution
    let found := (magnitudeList min_magnitude).find? (fun magnitude =>
      let granularity := 10 ^ magnitude
      let period := Time.round s.average_gap granularity
      decide (interval_left ≤ period ∧ period ≤ interval_right))
    let period :=
      match found with
      | some magnitude => Time.round s.average_gap (10 ^ magnitude)
      | none => Time.round s.average_gap s.resolution
    { s with current_model := some ({ model with period := period }) }

/-- `extract_offset_and_jitter` (`periodic.rs` lines 145-170): minimum and
maximum of `instant mod period` over the activation history, seeded with
the newest activation's value; `offset = truncate(min, resolution)`,
`jitter = max − offset`. -/
def PeriodicTaskExtractor.extract_offset_and_jitter (s : PeriodicTaskExtractor) :
    PeriodicTaskExtractor :=
  match s.current_model with
  | none => s
  | some model =>
    let last_activation :=
      (s.activation_history.data.getLast?).getD ⟨TraceEventType.Activation, 0, 0⟩
    let last_jo := last_activation.instant % model.period
    let mm := s.activation_history.data.foldl
      (fun (mm : Nat × Nat) e =>
        let jo := e.instant % model.period
        (if jo < mm.1 then jo else mm.1, if mm.2 < jo then jo else mm.2))
      (last_jo, last_jo)
    let offset := Time.truncate mm.1 s.resolution
    let model2 := { model with offset := offset, jitter := mm.2 - offset }
    { s with current_model := some model2 }

/-- `update_still_periodic` (`periodic.rs` lines 172-181): matching iff the
range is present and not `Empty`; the model is reset to `Default` when
matching and cleared otherwise. -/
def PeriodicTaskExtractor.update_still_periodic (s : PeriodicTaskExtractor) :
    PeriodicTaskExtractor :=
  let sp :=
    match s.curr_period_range with
    | none => false
    | some i => !i.is_empty
  { s with still_periodic := sp,
           current_model := if sp then some PeriodicTask.default else none }

/-- `push_activation` (`periodic.rs` lines 183-202). -/
def PeriodicTaskExtractor.push_activation (s : PeriodicTaskExtractor)
    (event : TraceEvent) : PeriodicTaskExtractor :=
  if s.activation_history.data.isEmpty then
    { s with activation_history := s.activation_history.push event }
  else
    let s1 := s.push_activation_and_update_average_gap event
    let s2 := s1.update_period_range
    let s3 := s2.update_still_periodic
    if s3.still_periodic then (s3.find_period).extract_offset_and_jitter else s3

/-- `push_deactivation` (`periodic.rs` lines 204-218). -/
def PeriodicTaskExtractor.push_deactivation (s : PeriodicTaskExtractor)
    (event : TraceEvent) : PeriodicTaskExtractor :=
  match s.last_job with
  | none => s
  | some job =>
    if job.completed_at = event.instant then
      let new_wcet := max s.wcet job.execution_time
      let new_model := s.current_model.map (fun m => { m with wcet := new_wcet })
      { s with wcet := new_wcet, current_model := new_model }
    else s

/-- `TaskModelExtractor::push_event` for the periodic extractor
(`periodic.rs` lines 235-249); the boolean is `maybe_job.is_some()`. -/
def PeriodicTaskExtractor.push_event (s : PeriodicTaskExtractor)
    (event : TraceEvent) : PeriodicTaskExtractor × Bool :=
  let jr := s.job_detector.push_event event
  let s1 := { s with job_detector := jr.1,
                     last_job := if jr.2.isSome then jr.2 else s.last_job }
  let s2 :=
    match event.etype with
    | TraceEventType.Activation => s1.push_activation event
    | TraceEventType.Deactivation => s1.push_deactivation event
    | _ => s1
  (s2, jr.2.isSome)

/-- `is_matching` (`periodic.rs` lines 230-232). -/
def PeriodicTaskExtractor.is_matching (s : PeriodicTaskExtractor) : Bool :=
  s.still_periodic

/-- `extract_model` (`periodic.rs` lines 252-254). -/
def PeriodicTaskExtractor.extract_model (s : PeriodicTaskExtractor) :
    Option PeriodicTask :=
  s.current_model

/-- Feed an event list through a fresh periodic extractor. -/
def runPeriodicExtractor (j_max resolution : Nat) (events : List TraceEvent) :
    PeriodicTaskExtractor :=
  events.foldl (fun s e => (s.push_event e).1)
    (PeriodicTaskExtractor.new j_max resolution)

/-! ## Claim C3: matching periodic models -/

/-- The C3 refutation run: six activations at `0, 99, 198, 297, 396, 576`
with `J_max = 40` and `resolution = 10`.  After the first five (gaps of
99), the feasible interval is `[89, 109]`; the sixth gap of 180 pulls the
integer moving average to 116 with error `40/5 = 8`, shrinking the
interval to `[108, 109]`, and no power-of-ten rounding of 116 lands
inside it. -/
def periodicC3 : PeriodicTaskExtractor :=
  runPeriodicExtractor 40 10
    [⟨TraceEventType.Activation, 0, 0⟩, ⟨TraceEventType.Activation, 0, 99⟩,
     ⟨TraceEventType.Activation, 0, 198⟩, ⟨TraceEventType.Activation, 0, 297⟩,
     ⟨TraceEventType.Activation, 0, 396⟩, ⟨TraceEventType.Activation, 0, 576⟩]

/-- C3 as stated fails on the code, in both conjuncts at once: after the
`periodicC3` run the extractor reports matching, yet the extracted period
is the fallback `round(116, 10) = 120`, *outside* the feasible interval
`[108, 109]`, and the extracted jitter is `99 > J_max = 40` (the offsets
mod 120 of the six activations range from 0 to 99, and nothing checks the
computed jitter against `J_max`). -/
theorem periodic_matching_bounds_counterexample :
    periodicC3.is_matching = true ∧
    periodicC3.curr_period_range = some (ClosedInterval.NotEmpty 108 109) ∧
    periodicC3.extract_model =
      some { period := 120, offset := 0, jitter := 99, wcet := 0 } ∧
    ¬ (108 ≤ 120 ∧ 120 ≤ 109) ∧ ¬ (99 ≤ 40) := by
  refine ⟨by decide, by decide, by decide, by decide, by decide⟩

/-- Invariant of the periodic extractor: the feasible-period range is never
`NotAnInterval`, and a matching extractor has a non-empty range and a
current model. -/
def PeriodicInv (s : PeriodicTaskExtractor) : Prop :=
  (∀ i, s.curr_period_range = some i → i.is_interval = true) ∧
  (s.still_periodic = true →
    (∃ l u, s.curr_period_range = some (ClosedInterval.NotEmpty l u)) ∧
    s.current_model.isSome = true)

theorem intersection_with_notEmpty_is_interval (x : ClosedInterval Nat)
    (hx : x.is_interval = true) (a b : Nat) :
    (x.intersection (ClosedInterval.NotEmpty a b)).is_interval = true := by
  cases x with
  | Empty => rfl
  | NotAnInterval => simp [ClosedInterval.is_interval] at hx
  | NotEmpty c d =>
      rw [ClosedInterval.intersection_notEmpty_notEmpty]
      split <;> rfl

theorem avg_fields (s : PeriodicTaskExtractor) (e : TraceEvent) :
    (s.push_activation_and_update_average_gap e).curr_period_range =
      s.curr_period_range ∧
    (s.push_activation_and_update_average_gap e).still_periodic =
      s.still_periodic ∧
    (s.push_activation_and_update_average_gap e).current_model =
      s.current_model := by
  simp [PeriodicTaskExtractor.push_activation_and_update_average_gap]

theorem update_period_range_range (s : PeriodicTaskExtractor)
    (h1 : ∀ i, s.curr_period_range = some i → i.is_interval = true) :
    ∀ i, (s.update_period_range).curr_period_range = some i →
      i.is_interval = true := by
  simp only [PeriodicTaskExtractor.update_period_range]
  split
  · intro i hi
    simp only [Option.some_inj] at hi
    subst hi
    rcases hr : s.curr_period_range with _ | prev
    · simp [hr, ClosedInterval.closed, ClosedInterval.is_interval]
    · simp only [hr, ClosedInterval.closed]
      exact intersection_with_notEmpty_is_interval prev (h1 prev hr) _ _
  · exact h1

theorem update_still_periodic_inv (s : PeriodicTaskExtractor)
    (h1 : ∀ i, s.curr_period_range = some i → i.is_interval = true) :
    PeriodicInv (s.update_still_periodic) := by
  constructor
  · intro i hi
    simp only [PeriodicTaskExtractor.update_still_periodic] at hi
    exact h1 i hi
  · intro hsp
    simp only [PeriodicTaskExtractor.update_still_periodic] at hsp ⊢
    rcases hr : s.curr_period_range with _ | i
    · rw [hr] at hsp; simp at hsp
    · rw [hr] at hsp
      simp only [Bool.not_eq_true'] at hsp
      cases i with
      | Empty => simp [ClosedInterval.is_empty] at hsp
      | NotAnInterval =>
          have hint := h1 _ hr
          simp [ClosedInterval.is_interval] at hint
      | NotEmpty l u =>
          refine ⟨⟨l, u, rfl⟩, ?_⟩
          simp [ClosedInterval.is_empty]

theorem find_period_fields (s : PeriodicTaskExtractor) :
    (s.find_period).curr_period_range = s.curr_period_range ∧
    (s.find_period).still_periodic = s.still_periodic ∧
    (s.find_period).current_model.isSome = s.current_model.isSome := by
  rcases hm : s.current_model with _ | m <;>
    simp [PeriodicTaskExtractor.find_period, hm]

theorem extract_offset_fields (s : PeriodicTaskExtractor) :
    (s.extract_offset_and_jitter).curr_period_range = s.curr_period_range ∧
    (s.extract_offset_and_jitter).still_periodic = s.still_periodic ∧
    (s.extract_offset_and_jitter).current_model.isSome =
      s.current_model.isSome := by
  rcases hm : s.current_model with _ | m <;>
    simp [PeriodicTaskExtractor.extract_offset_and_jitter, hm]

theorem inv_of_fields {s s2 : PeriodicTaskExtractor}
    (hr : s2.curr_period_range = s.curr_period_range)
    (hsp : s2.still_periodic = s.still_periodic)
    (hm : s2.current_model.isSome = s.current_model.isSome)
    (h : PeriodicInv s) : PeriodicInv s2 := by
  obtain ⟨h1, h2⟩ := h
  constructor
  · intro i hi
    exact h1 i (hr ▸ hi)
  · intro hsp2
    obtain ⟨he, hm2⟩ := h2 (hsp ▸ hsp2)
    exact ⟨by rw [hr]; exact he, by rw [hm]; exact hm2⟩

theorem push_activation_inv (s : PeriodicTaskExtractor) (e : TraceEvent)
    (h : PeriodicInv s) : PeriodicInv (s.push_activation e) := by
  simp only [PeriodicTaskExtractor.push_activation]
  split
  · exact inv_of_fields rfl rfl rfl h
  · obtain ⟨ha1, ha2, ha3⟩ := avg_fields s e
    have h1 : ∀ i, (s.push_activation_and_update_average_gap e).curr_period_range =
        some i → i.is_interval = true := by
      intro i hi
      exact h.1 i (ha1 ▸ hi)
    have hu1 := update_period_range_range
      (s.push_activation_and_update_average_gap e) h1
    have hinv3 : PeriodicInv
        ((s.push_activation_and_update_average_gap
          e).update_period_range).update_still_periodic :=
      update_still_periodic_inv _ hu1
    split
    · obtain ⟨hf1, hf2, hf3⟩ := find_period_fields
        (((s.push_activation_and_update_average_gap
          e).update_period_range).update_still_periodic)
      obtain ⟨ho1, ho2, ho3⟩ := extract_offset_fields
        ((((s.push_activation_and_update_average_gap
          e).update_period_range).update_still_periodic).find_period)
      exact inv_of_fields (ho1.trans hf1) (ho2.trans hf2) (ho3.trans hf3) hinv3
    · exact hinv3

theorem push_deactivation_inv (s : PeriodicTaskExtractor) (e : TraceEvent)
    (h : PeriodicInv s) : PeriodicInv (s.push_deactivation e) := by
  simp only [PeriodicTaskExtractor.push_deactivation]
  split
  · exact h
  · split
    · refine inv_of_fields ?_ ?_ ?_ h
      · rfl
      · rfl
      · rcases hm : s.current_model with _ | m <;> simp [hm]
    · exact h

theorem push_event_inv (s : PeriodicTaskExtractor) (e : TraceEvent)
    (h : PeriodicInv s) : PeriodicInv (s.push_event e).1 := by
  simp only [PeriodicTaskExtractor.push_event]
  have hbase : PeriodicInv
      { s with job_detector := (s.job_detector.push_event e).1,
               last_job := if (s.job_detector.push_event e).2.isSome then
                 (s.job_detector.push_event e).2 else s.last_job } :=
    inv_of_fields rfl rfl rfl h
  cases e.etype with
  | Activation => exact push_activation_inv _ e hbase
  | Deactivation => exact push_deactivation_inv _ e hbase
  | Preemption => exact hbase
  | Dispatch => exact hbase
  | Exit => exact hbase

theorem run_inv (j_max resolution : Nat) (events : List TraceEvent) :
    PeriodicInv (runPeriodicExtractor j_max resolution events) := by
  unfold runPeriodicExtractor
  have hnew : PeriodicInv (PeriodicTaskExtractor.new j_max resolution) := by
    constructor
    · intro i hi
      simp [PeriodicTaskExtractor.new] at hi
    · intro hsp
      simp [PeriodicTaskExtractor.new] at hsp
  generalize PeriodicTaskExtractor.new j_max resolution = s0 at hnew ⊢
  induction events generalizing s0 with
  | nil => exact hnew
  | cons e es ih =>
      rw [List.foldl_cons]
      exact ih _ (push_event_inv s0 e hnew)

/-- C3 amended: after any event sequence, a periodic extractor that reports
matching has a present, non-empty feasible interval `[l, u]` and an
extracted model — but the model's period may lie outside `[l, u]` (the
fallback rounding is unchecked) and its jitter may exceed `J_max` (nothing
bounds the computed jitter). -/
theorem periodic_matching_interval_nonempty (j_max resolution : Nat)
    (events : List TraceEvent)
    (h : (runPeriodicExtractor j_max resolution events).is_matching = true) :
    (∃ l u, (runPeriodicExtractor j_max resolution events).curr_period_range =
        some (ClosedInterval.NotEmpty l u)) ∧
    ((runPeriodicExtractor j_max resolution events).extract_model).isSome = true := by
  have hinv := run_inv j_max resolution events
  exact hinv.2 h

/-- Witness for the amended C3: two activations 99 apart put the extractor
in a matching state. -/
theorem periodic_matching_interval_nonempty_witness :
    (runPeriodicExtractor 40 10
      [⟨TraceEventType.Activation, 0, 0⟩,
       ⟨TraceEventType.Activation, 0, 99⟩]).is_matching = true ∧
    ((∃ l u, (runPeriodicExtractor 40 10
        [⟨TraceEventType.Activation, 0, 0⟩,
         ⟨TraceEventType.Activation, 0, 99⟩]).curr_period_range =
        some (ClosedInterval.NotEmpty l u)) ∧
     ((runPeriodicExtractor 40 10
        [⟨TraceEventType.Activation, 0, 0⟩,
         ⟨TraceEventType.Activation, 0, 99⟩]).extract_model).isSome = true) :=
  ⟨by decide, periodic_matching_interval_nonempty 40 10 _ (by decide)⟩

/-! ## Composite extractor (`composite.rs`) -/

/-- Modelled from the spec: `PeriodicSelfSuspendingTask` (spec section 3) —
`{period, total_wcet, total_wcss, wcet[0..m], ss[0..m−1], segmented}`; the
struct is exported by the core crate's `model.rs` but its definition is not
among the provided sources.  Claim C2 quantifies over all values of this
type, so only its shape matters. -/
structure PeriodicSelfSuspendingTask where
  period : Nat
  total_wcet : Nat
  total_wcss : Nat
  wcet : List Nat
  ss : List Nat
  segmented : Bool
deriving DecidableEq, Repr

/-- `RBFExtractor` (`rbf.rs` lines 18-21). -/
structure RBFExtractor where
  job_detector : JobExtractor
  rbf : RbfCurve
deriving DecidableEq, Repr

/-- `RBFExtractor::extract_model` (`rbf.rs` lines 45-47): always `Some`. -/
def RBFExtractor.extract_model (s : RBFExtractor) : Option RbfCurve :=
  some s.rbf

/-- `CompositeModel` (`composite.rs` lines 30-35). -/
structure CompositeModel where
  periodic : Option PeriodicTask
  periodic_ss : Option PeriodicSelfSuspendingTask
  rbf : RbfCurve
deriving DecidableEq, Repr

/-- `CompositeModel::new` (`composite.rs` lines 37-42). -/
def CompositeModel.new (periodic : Option PeriodicTask)
    (periodic_ss : Option PeriodicSelfSuspendingTask) (rbf : RbfCurve) :
    CompositeModel :=
  ⟨periodic, periodic_ss, rbf⟩

/-- `CompositeModelExtractor` (`composite.rs` lines 11-18).  The spectral
extractor is represented by the value its `extract_model` would return
(`spectral_model`): its internals (an FFT over an `f32` signal,
`spectral.rs`) are floating-point and play no role in claim C2, which is
proved for *every* possible spectral result — covering the actual one. -/
structure CompositeModelExtractor where
  periodic_extractor : PeriodicTaskExtractor
  spectral_model : Option PeriodicSelfSuspendingTask
  rbf_extractor : RBFExtractor
  periodic_enabled : Bool
  spectral_enabled : Bool
  rbf_enabled : Bool
deriving DecidableEq, Repr

/-- `CompositeModelExtractor::extract_model` (`composite.rs` lines 82-98):
`rbf` defaults to `RbfCurve::new(0, 1)` when disabled (and `.unwrap()`,
here `getD`, is safe since the RBF extractor always returns `Some`);
`periodic` is consulted only when enabled; the spectral result only when
enabled *and* `periodic.is_none()`. -/
def CompositeModelExtractor.extract_model (s : CompositeModelExtractor) :
    Option CompositeModel :=
  let rbf0 := RbfCurve.new 0 1
  let rbf := if s.rbf_enabled then (s.rbf_extractor.extract_model).getD rbf0 else rbf0
  let periodic := if s.periodic_enabled then s.periodic_extractor.extract_model else none
  let periodic_ss :=
    if s.spectral_enabled ∧ periodic.isNone then s.spectral_model else none
  some (CompositeModel.new periodic periodic_ss rbf)

/-- C2: whatever the sub-extractor states (hence after every event
sequence), the composite model returned by `extract_model` never holds both
`periodic` and `periodic_ss`, and the spectral model is included only when
the periodic side produced none — in particular, when the periodic
extractor is enabled, only when its own `extract_model` is `None`. -/
theorem composite_at_most_one_scalar_model (s : CompositeModelExtractor)
    (m : CompositeModel) (h : s.extract_model = some m) :
    ¬ (m.periodic.isSome = true ∧ m.periodic_ss.isSome = true) ∧
    (m.periodic_ss.isSome = true →
      m.periodic = none ∧
      (s.periodic_enabled = true → s.periodic_extractor.extract_model = none)) := by
  simp only [CompositeModelExtractor.extract_model, CompositeModel.new,
    Option.some_inj] at h
  subst h
  by_cases hpe : s.periodic_enabled <;>
    by_cases hse : s.spectral_enabled <;>
      rcases hmod : s.periodic_extractor.extract_model with _ | pm <;>
        simp [hpe, hse, hmod]

/-- Witness for C2 at a concrete composite state (fresh periodic extractor,
a present spectral model, all sub-extractors enabled). -/
theorem composite_at_most_one_scalar_model_witness :
    (CompositeModelExtractor.mk (PeriodicTaskExtractor.new 40 10)
      (some ⟨100, 5, 2, [], [], false⟩)
      ⟨JobExtractor.new, RbfCurve.new 0 1⟩ true true true).extract_model =
      some (CompositeModel.new none (some ⟨100, 5, 2, [], [], false⟩)
        (RbfCurve.new 0 1)) ∧
    (¬ ((CompositeModel.new none (some ⟨100, 5, 2, [], [], false⟩)
        (RbfCurve.new 0 1)).periodic.isSome = true ∧
       (CompositeModel.new none (some ⟨100, 5, 2, [], [], false⟩)
        (RbfCurve.new 0 1)).periodic_ss.isSome = true) ∧
     ((CompositeModel.new none (some ⟨100, 5, 2, [], [], false⟩)
        (RbfCurve.new 0 1)).periodic_ss.isSome = true →
       (CompositeModel.new none (some ⟨100, 5, 2, [], [], false⟩)
        (RbfCurve.new 0 1)).periodic = none ∧
       ((CompositeModelExtractor.mk (PeriodicTaskExtractor.new 40 10)
          (some ⟨100, 5, 2, [], [], false⟩)
          ⟨JobExtractor.new, RbfCurve.new 0 1⟩ true true true).periodic_enabled = true →
         (CompositeModelExtractor.mk (PeriodicTaskExtractor.new 40 10)
          (some ⟨100, 5, 2, [], [], false⟩)
          ⟨JobExtractor.new, RbfCurve.new 0 1⟩ true true
          true).periodic_extractor.extract_model = none))) :=
  ⟨by decide,
   composite_at_most_one_scalar_model _ _ (by decide)⟩

end Rbftrace
